import Mathlib

/-!
Verification of the Growth_Phase dashboard (flask_app.py, streamlit_app.py).

The development shallowly embeds the pieces of the code that the checked
properties concern: the month-to-date comparison window calculator
(get_comparison_dates), the paginated early-exit fetchers for Kajabi
customers and purchases, the HubSpot deal fetch with its owner exclusion and
date-range fill, the cumulative ("worm") series builder, and the
delta-percentage expression of the panel routes.

Python datetime values are modelled at day granularity by PyDate (the window
arithmetic of the code only ever moves whole days, and the function returns
.date() values); instants inside one day (the IST-localized timestamps the
Kajabi fetchers compare) are modelled as integers.  An OverflowError raised
by date arithmetic reaching past the calendar epoch is modelled as none.
-/

namespace GrowthPhase

/-- A Python datetime.date: proleptic Gregorian calendar, year 1 onwards. -/
structure PyDate where
  year : Nat
  month : Nat
  day : Nat
deriving DecidableEq, Repr

/-- Python calendar leap test, as datetime._is_leap computes it. -/
def isLeap (y : Nat) : Bool :=
  (y % 4 == 0 && y % 100 != 0) || y % 400 == 0

theorem isLeap_iff (y : Nat) :
    isLeap y = true ↔ ((y % 4 = 0 ∧ y % 100 ≠ 0) ∨ y % 400 = 0) := by
  unfold isLeap
  simp [Bool.or_eq_true, Bool.and_eq_true, beq_iff_eq, bne_iff_ne]

/-- datetime._days_in_month. -/
def daysInMonth (y m : Nat) : Nat :=
  if m = 2 then (if isLeap y then 29 else 28)
  else if m = 4 ∨ m = 6 ∨ m = 9 ∨ m = 11 then 30
  else 31

/-- The dates Python represents: month 1..12, day 1..last day of the month. -/
def Valid (d : PyDate) : Prop :=
  1 ≤ d.year ∧ 1 ≤ d.month ∧ d.month ≤ 12 ∧ 1 ≤ d.day ∧
    d.day ≤ daysInMonth d.year d.month

instance (d : PyDate) : Decidable (Valid d) := by unfold Valid; infer_instance

/-- datetime._days_before_year, in its closed form. -/
def daysBeforeYear (y : Nat) : Nat :=
  365 * (y - 1) + (y - 1) / 4 - (y - 1) / 100 + (y - 1) / 400

/-- datetime._DAYS_BEFORE_MONTH. -/
def daysBeforeMonthTable : Nat → Nat
  | 1 => 0 | 2 => 31 | 3 => 59 | 4 => 90 | 5 => 120 | 6 => 151
  | 7 => 181 | 8 => 212 | 9 => 243 | 10 => 273 | 11 => 304 | 12 => 334
  | _ => 0

/-- datetime._days_before_month. -/
def daysBeforeMonth (y m : Nat) : Nat :=
  daysBeforeMonthTable m + (if 2 < m ∧ isLeap y then 1 else 0)

/-- datetime.date.toordinal: day 1 is 0001-01-01.  Chronological order of
valid dates is order of ordinals, so date comparisons are modelled on ord. -/
def ord : PyDate → Nat
  | ⟨y, m, d⟩ => daysBeforeYear y + daysBeforeMonth y m + d

def yearDays (y : Nat) : Nat := if isLeap y then 366 else 365

/-- date + one day (never overflows: the model year is unbounded above). -/
def nextDay : PyDate → PyDate
  | ⟨y, m, d⟩ =>
    if d < daysInMonth y m then ⟨y, m, d + 1⟩
    else if m < 12 then ⟨y, m + 1, 1⟩
    else ⟨y + 1, 1, 1⟩

/-- date - one day; none models the OverflowError Python raises below
0001-01-01. -/
def prevDayO : PyDate → Option PyDate
  | ⟨y, m, d⟩ =>
    if 1 < d then some ⟨y, m, d - 1⟩
    else if 1 < m then some ⟨y, m - 1, daysInMonth y (m - 1)⟩
    else if 1 < y then some ⟨y - 1, 12, 31⟩
    else none

/-- date + timedelta(days=n). -/
def addDays (d : PyDate) : Nat → PyDate
  | 0 => d
  | n + 1 => nextDay (addDays d n)

/-- date - timedelta(days=n); none models OverflowError. -/
def subDaysO (d : PyDate) : Nat → Option PyDate
  | 0 => some d
  | n + 1 => (subDaysO d n).bind prevDayO

theorem daysInMonth_pos (y m : Nat) : 1 ≤ daysInMonth y m := by
  unfold daysInMonth
  split
  · split <;> omega
  · split <;> omega

theorem valid_mk {y m d : Nat} (h1 : 1 ≤ y) (h2 : 1 ≤ m) (h3 : m ≤ 12)
    (h4 : 1 ≤ d) (h5 : d ≤ daysInMonth y m) : Valid ⟨y, m, d⟩ :=
  ⟨h1, h2, h3, h4, h5⟩

theorem valid_parts {d : PyDate} (hv : Valid d) :
    1 ≤ d.year ∧ 1 ≤ d.month ∧ d.month ≤ 12 ∧ 1 ≤ d.day ∧
      d.day ≤ daysInMonth d.year d.month := hv

theorem daysBeforeMonth_succ (y m : Nat) (h1 : 1 ≤ m) (h2 : m ≤ 11) :
    daysBeforeMonth y (m + 1) = daysBeforeMonth y m + daysInMonth y m := by
  interval_cases m <;>
    cases h : isLeap y <;>
      simp [daysBeforeMonth, daysBeforeMonthTable, daysInMonth, h]

set_option maxHeartbeats 1600000 in
theorem daysBeforeYear_succ (y : Nat) (h : 1 ≤ y) :
    daysBeforeYear (y + 1) = daysBeforeYear y + yearDays y := by
  unfold daysBeforeYear yearDays
  by_cases hl : isLeap y = true
  · rw [if_pos hl]
    rw [isLeap_iff] at hl
    omega
  · rw [if_neg hl]
    rw [isLeap_iff] at hl
    push_neg at hl
    omega

theorem daysBeforeMonth_year (y : Nat) :
    daysBeforeMonth y 12 + daysInMonth y 12 = yearDays y := by
  cases h : isLeap y <;>
    simp [daysBeforeMonth, daysBeforeMonthTable, daysInMonth, yearDays, h]

theorem valid_nextDay {d : PyDate} (hv : Valid d) : Valid (nextDay d) := by
  obtain ⟨y, m, dd⟩ := d
  obtain ⟨hy, hm1, hm2, hd1, hd2⟩ := valid_parts hv
  simp only at hy hm1 hm2 hd1 hd2
  show Valid (if dd < daysInMonth y m then ⟨y, m, dd + 1⟩
    else if m < 12 then ⟨y, m + 1, 1⟩ else ⟨y + 1, 1, 1⟩)
  split
  · exact valid_mk hy hm1 hm2 (by omega) (by omega)
  · split
    · exact valid_mk hy (by omega) (by omega) (le_refl 1) (daysInMonth_pos _ _)
    · exact valid_mk (by omega) (by omega) (by omega) (le_refl 1) (daysInMonth_pos _ _)

theorem ord_nextDay {d : PyDate} (hv : Valid d) : ord (nextDay d) = ord d + 1 := by
  obtain ⟨y, m, dd⟩ := d
  obtain ⟨hy, hm1, hm2, hd1, hd2⟩ := valid_parts hv
  simp only at hy hm1 hm2 hd1 hd2
  show ord (if dd < daysInMonth y m then (⟨y, m, dd + 1⟩ : PyDate)
    else if m < 12 then ⟨y, m + 1, 1⟩ else ⟨y + 1, 1, 1⟩) = ord ⟨y, m, dd⟩ + 1
  split
  · simp only [ord]; omega
  · rename_i hlt
    have hde : dd = daysInMonth y m := by omega
    split
    · rename_i hm12
      have := daysBeforeMonth_succ y m hm1 (by omega)
      simp only [ord]
      omega
    · rename_i hm12
      have hm : m = 12 := by omega
      have h1 := daysBeforeYear_succ y hy
      have h2 := daysBeforeMonth_year y
      have h31 : daysInMonth y 12 = 31 := by simp [daysInMonth]
      subst hm
      simp only [ord]
      simp only [daysBeforeMonth, daysBeforeMonthTable] at *
      cases hL : isLeap y <;> simp [hL, yearDays] at h1 h2 ⊢ <;> omega

theorem valid_addDays {d : PyDate} (hv : Valid d) (n : Nat) : Valid (addDays d n) := by
  induction n with
  | zero => exact hv
  | succ k ih => exact valid_nextDay ih

theorem ord_addDays {d : PyDate} (hv : Valid d) (n : Nat) :
    ord (addDays d n) = ord d + n := by
  induction n with
  | zero => rfl
  | succ k ih =>
    have := ord_nextDay (valid_addDays hv k)
    simp only [addDays]
    omega

theorem prevDayO_valid {d e : PyDate} (hv : Valid d) (h : prevDayO d = some e) :
    Valid e := by
  obtain ⟨y, m, dd⟩ := d
  obtain ⟨hy, hm1, hm2, hd1, hd2⟩ := valid_parts hv
  simp only at hy hm1 hm2 hd1 hd2
  have h2 : (if 1 < dd then some (⟨y, m, dd - 1⟩ : PyDate)
      else if 1 < m then some ⟨y, m - 1, daysInMonth y (m - 1)⟩
      else if 1 < y then some ⟨y - 1, 12, 31⟩
      else none) = some e := h
  clear h
  split at h2
  · cases h2; exact valid_mk hy hm1 hm2 (by omega) (by omega)
  · split at h2
    · cases h2
      exact valid_mk hy (by omega) (by omega) (daysInMonth_pos _ _) (le_refl _)
    · split at h2
      · cases h2
        have h31 : daysInMonth (y - 1) 12 = 31 := by simp [daysInMonth]
        exact valid_mk (by omega) (by omega) (by omega) (by omega) (by omega)
      · cases h2

theorem subDaysO_valid {d : PyDate} (hv : Valid d) (n : Nat) {e : PyDate}
    (h : subDaysO d n = some e) : Valid e := by
  induction n generalizing e with
  | zero => cases h; exact hv
  | succ k ih =>
    simp only [subDaysO] at h
    rcases hmid : subDaysO d k with _ | mid
    · rw [hmid] at h; cases h
    · rw [hmid] at h
      exact prevDayO_valid (ih hmid) h

/-- Stepping back from the first day of a month lands on the last day of the
immediately preceding calendar month. -/
theorem prevDayO_firstOfMonth {d e : PyDate} (hv : Valid d) (hd : d.day = 1)
    (h : prevDayO d = some e) :
    e.day = daysInMonth e.year e.month ∧ nextDay e = d ∧ Valid e := by
  obtain ⟨y, m, dd⟩ := d
  obtain ⟨hy, hm1, hm2, hd1, hd2⟩ := valid_parts hv
  simp only at hy hm1 hm2 hd1 hd2 hd
  subst hd
  have h2 : (if 1 < (1 : Nat) then some (⟨y, m, 1 - 1⟩ : PyDate)
      else if 1 < m then some ⟨y, m - 1, daysInMonth y (m - 1)⟩
      else if 1 < y then some ⟨y - 1, 12, 31⟩
      else none) = some e := h
  clear h
  rw [if_neg (lt_irrefl 1)] at h2
  split at h2
  · rename_i hmgt
    cases h2
    refine ⟨rfl, ?_, valid_mk hy (by omega) (by omega) (daysInMonth_pos _ _) (le_refl _)⟩
    show (if daysInMonth y (m - 1) < daysInMonth y (m - 1) then (⟨y, m - 1, _ + 1⟩ : PyDate)
      else if m - 1 < 12 then ⟨y, m - 1 + 1, 1⟩ else ⟨y + 1, 1, 1⟩) = ⟨y, m, 1⟩
    rw [if_neg (lt_irrefl _), if_pos (by omega : m - 1 < 12)]
    have hmm : m - 1 + 1 = m := by omega
    rw [hmm]
  · split at h2
    · rename_i hmle hygt
      cases h2
      have hm : m = 1 := by omega
      have h31 : daysInMonth (y - 1) 12 = 31 := by simp [daysInMonth]
      refine ⟨by simp only; omega, ?_,
        valid_mk (by omega) (by omega) (by omega) (by omega) (by omega)⟩
      show (if (31 : Nat) < daysInMonth (y - 1) 12 then (⟨y - 1, 12, 32⟩ : PyDate)
        else if (12 : Nat) < 12 then ⟨y - 1, 13, 1⟩ else ⟨y - 1 + 1, 1, 1⟩) = ⟨y, m, 1⟩
      rw [if_neg (by omega), if_neg (lt_irrefl 12)]
      have hyy : y - 1 + 1 = y := by omega
      rw [hyy, hm]
    · cases h2

theorem ord_def (d : PyDate) :
    ord d = daysBeforeYear d.year + daysBeforeMonth d.year d.month + d.day := by
  cases d; rfl

/-- Stepping forward from the first of the month after month (y, m) lands on
the last day of month (y, m): what month1_end of get_comparison_dates is in
its in-the-past branch. -/
theorem nextMonthFirst_prev (y m : Nat) (hy : 1 ≤ y) (hm1 : 1 ≤ m) (hm2 : m ≤ 12) :
    prevDayO (if m = 12 then (⟨y + 1, 1, 1⟩ : PyDate) else ⟨y, m + 1, 1⟩)
      = some ⟨y, m, daysInMonth y m⟩ := by
  split
  · rename_i h12
    subst h12
    simp only [prevDayO]
    rw [if_neg (lt_irrefl 1), if_neg (lt_irrefl 1), if_pos (show 1 < y + 1 by omega)]
    have h1 : y + 1 - 1 = y := by omega
    have h31 : daysInMonth y 12 = 31 := by simp [daysInMonth]
    rw [h1, h31]
  · simp only [prevDayO]
    rw [if_neg (lt_irrefl 1), if_pos (show 1 < m + 1 by omega)]
    have h1 : m + 1 - 1 = m := by omega
    rw [h1]

/-- The tuple get_comparison_dates returns:
(month1_start, month1_end, month2_start, month2_end, base_date). -/
structure ComparisonDates where
  month1_start : PyDate
  month1_end : PyDate
  month2_start : PyDate
  month2_end : PyDate
  base_date : PyDate
deriving DecidableEq, Repr

/-- Body of get_comparison_dates (flask_app.py lines 99-127) once base_date
has been stepped back.  month1 is the month-to-date window of the month of
base_date (ending today when that is the current month, else at the last day
of the month); month2 starts at the first of the immediately preceding month
and extends by days_passed, capped at that month's last day.  days_passed is
written with Nat subtraction: month1_start never exceeds month1_end (proved
below), so no truncation occurs.  The try/except around the month2_end sum
is covered by the cap alone: addDays is total here, and any date the real
code could overflow on exceeds last_month_last_day, so model and code both
land on the clamped value. -/
def comparisonFromBase (today base_date : PyDate) : Option ComparisonDates :=
  let month1_start : PyDate := ⟨base_date.year, base_date.month, 1⟩
  let month1_endO : Option PyDate :=
    if base_date.year = today.year ∧ base_date.month = today.month then some today
    else
      let next_month : PyDate :=
        if base_date.month = 12 then ⟨base_date.year + 1, 1, 1⟩
        else ⟨base_date.year, base_date.month + 1, 1⟩
      prevDayO next_month
  match month1_endO with
  | none => none
  | some month1_end =>
    let days_passed : Nat := ord month1_end - ord month1_start
    match prevDayO month1_start with
    | none => none
    | some last_month_last_day =>
      let month2_start : PyDate :=
        ⟨last_month_last_day.year, last_month_last_day.month, 1⟩
      let month2_end_naive : PyDate := addDays month2_start days_passed
      let month2_end : PyDate :=
        if ord last_month_last_day < ord month2_end_naive then last_month_last_day
        else month2_end_naive
      some ⟨month1_start, month1_end, month2_start, month2_end, base_date⟩

/-- get_comparison_dates (flask_app.py lines 93-127).  today stands for
datetime.now() and is passed explicitly (the spec notes it must be
injectable); month_offset steps base_date back by 30-day blocks, exactly as
base_date - timedelta(days=30*month_offset).  none models an uncaught
OverflowError from date arithmetic. -/
def get_comparison_dates (today : PyDate) (month_offset : Nat) :
    Option ComparisonDates :=
  (subDaysO today (30 * month_offset)).bind (comparisonFromBase today)

/-- Everything the claims need about one successful run of the window
calculator: both windows are made of valid dates and ordered, month2 starts
on the first of the month immediately preceding month1_start, and either the
two windows span the same number of days or month2_end is clamped to the
last day of its month; in every case month2_end stays within that month. -/
theorem comparisonFromBase_spec {today base : PyDate} {r : ComparisonDates}
    (ht : Valid today) (hb : Valid base)
    (h : comparisonFromBase today base = some r) :
    Valid r.month1_start ∧ Valid r.month1_end
    ∧ Valid r.month2_start ∧ Valid r.month2_end
    ∧ ord r.month1_start ≤ ord r.month1_end
    ∧ ord r.month2_start ≤ ord r.month2_end
    ∧ r.month1_start.day = 1 ∧ r.month2_start.day = 1
    ∧ ((ord r.month1_end : Int) - ord r.month1_start
         = (ord r.month2_end : Int) - ord r.month2_start
       ∨ (r.month2_end.year = r.month2_start.year
          ∧ r.month2_end.month = r.month2_start.month
          ∧ r.month2_end.day = daysInMonth r.month2_end.year r.month2_end.month))
    ∧ ord r.month2_end ≤ ord ⟨r.month2_start.year, r.month2_start.month,
        daysInMonth r.month2_start.year r.month2_start.month⟩
    ∧ nextDay ⟨r.month2_start.year, r.month2_start.month,
        daysInMonth r.month2_start.year r.month2_start.month⟩ = r.month1_start := by
  obtain ⟨ty, tm, td⟩ := today
  obtain ⟨sy, sm, sd⟩ := base
  obtain ⟨hty, htm1, htm2, htd1, htd2⟩ := valid_parts ht
  obtain ⟨hby, hbm1, hbm2, hbd1, hbd2⟩ := valid_parts hb
  simp only at hty htm1 htm2 htd1 htd2 hby hbm1 hbm2 hbd1 hbd2
  simp only [comparisonFromBase] at h
  split at h
  · exact absurd h (by simp)
  case _ m1e heq1 =>
    split at h
    · exact absurd h (by simp)
    case _ lmld heq2 =>
      obtain ⟨ly, lm, ld⟩ := lmld
      have hm1e : Valid m1e ∧ m1e.year = sy ∧ m1e.month = sm := by
        by_cases hsm : (sy = ty ∧ sm = tm)
        · rw [if_pos hsm] at heq1
          obtain rfl := Option.some_inj.mp heq1
          exact ⟨ht, by simp only; omega, by simp only; omega⟩
        · rw [if_neg hsm, nextMonthFirst_prev sy sm hby hbm1 hbm2] at heq1
          obtain rfl := Option.some_inj.mp heq1
          exact ⟨valid_mk hby hbm1 hbm2 (daysInMonth_pos _ _) (le_refl _),
            rfl, rfl⟩
      obtain ⟨hvm1e, hyse, hmse⟩ := hm1e
      have hvm1s : Valid (⟨sy, sm, 1⟩ : PyDate) :=
        valid_mk hby hbm1 hbm2 (le_refl 1) (daysInMonth_pos _ _)
      obtain ⟨hld, hnext, hvl⟩ := prevDayO_firstOfMonth hvm1s rfl heq2
      simp only at hld hnext
      obtain ⟨hly, hlm1, hlm2, hld1, hld2⟩ := valid_parts hvl
      simp only at hly hlm1 hlm2 hld1 hld2
      have hvm2s : Valid (⟨ly, lm, 1⟩ : PyDate) :=
        valid_mk hly hlm1 hlm2 (le_refl 1) (daysInMonth_pos _ _)
      have hord1 : ord (⟨sy, sm, 1⟩ : PyDate) ≤ ord m1e := by
        rw [ord_def m1e, hyse, hmse]
        obtain ⟨_, _, _, hd1, _⟩ := valid_parts hvm1e
        simp only [ord]
        omega
      obtain rfl := Option.some_inj.mp h
      simp only
      set dp := ord m1e - ord (⟨sy, sm, 1⟩ : PyDate) with hdp
      have hnaive : ord (addDays ⟨ly, lm, 1⟩ dp) = ord (⟨ly, lm, 1⟩ : PyDate) + dp :=
        ord_addDays hvm2s dp
      have hvnaive : Valid (addDays ⟨ly, lm, 1⟩ dp) := valid_addDays hvm2s dp
      refine ⟨hvm1s, hvm1e, hvm2s, ?_, hord1, ?_, trivial, trivial, ?_, ?_, ?_⟩
      · split
        · exact hvl
        · exact hvnaive
      · split
        · simp only [ord]; omega
        · omega
      · split
        · rename_i hclamp
          exact Or.inr ⟨rfl, rfl, hld⟩
        · rename_i hclamp
          refine Or.inl ?_
          rw [hnaive]
          omega
      · split
        · rename_i hclamp
          simp only [ord] at *
          omega
        · rename_i hclamp
          simp only [ord] at *
          omega
      · rw [← hld]
        exact hnext

/-- C2 (part): a successful get_comparison_dates run yields equal-length
windows or a month2_end clamped to the last day of its own month, which is
the calendar month immediately preceding month1_start. -/
theorem comparison_windows_symmetric_or_clamped
    (today : PyDate) (k : Nat) (r : ComparisonDates)
    (hv : Valid today) (h : get_comparison_dates today k = some r) :
    ((ord r.month1_end : Int) - ord r.month1_start
       = (ord r.month2_end : Int) - ord r.month2_start
     ∨ (r.month2_end.year = r.month2_start.year
        ∧ r.month2_end.month = r.month2_start.month
        ∧ r.month2_end.day = daysInMonth r.month2_end.year r.month2_end.month))
    ∧ ord r.month2_end ≤ ord ⟨r.month2_start.year, r.month2_start.month,
        daysInMonth r.month2_start.year r.month2_start.month⟩
    ∧ nextDay ⟨r.month2_start.year, r.month2_start.month,
        daysInMonth r.month2_start.year r.month2_start.month⟩ = r.month1_start := by
  unfold get_comparison_dates at h
  rcases hsub : subDaysO today (30 * k) with _ | base
  · rw [hsub] at h; exact absurd h (by simp)
  · rw [hsub] at h
    simp only [Option.bind] at h
    have spec := comparisonFromBase_spec hv (subDaysO_valid hv _ hsub) h
    exact ⟨spec.2.2.2.2.2.2.2.2.1, spec.2.2.2.2.2.2.2.2.2.1, spec.2.2.2.2.2.2.2.2.2.2⟩

/-- The 2024-03-30 run of the claim: 29 days passed in March, February 2024
has 29 days, so month2_end is clamped to 2024-02-29. -/
def cwMarch : ComparisonDates :=
  ⟨⟨2024, 3, 1⟩, ⟨2024, 3, 30⟩, ⟨2024, 2, 1⟩, ⟨2024, 2, 29⟩, ⟨2024, 3, 30⟩⟩

theorem comparison_windows_symmetric_or_clamped_witness :
    Valid (⟨2024, 3, 30⟩ : PyDate)
    ∧ get_comparison_dates ⟨2024, 3, 30⟩ 0 = some cwMarch
    ∧ cwMarch.month2_end = ⟨2024, 2, 29⟩
    ∧ (((ord cwMarch.month1_end : Int) - ord cwMarch.month1_start
          = (ord cwMarch.month2_end : Int) - ord cwMarch.month2_start)
       ∨ (cwMarch.month2_end.year = cwMarch.month2_start.year
          ∧ cwMarch.month2_end.month = cwMarch.month2_start.month
          ∧ cwMarch.month2_end.day
              = daysInMonth cwMarch.month2_end.year cwMarch.month2_end.month)) :=
  ⟨by decide, by decide, rfl,
    (comparison_windows_symmetric_or_clamped ⟨2024, 3, 30⟩ 0 cwMarch
      (by decide) (by decide)).1⟩

/-- C8 (amended): whenever get_comparison_dates completes without the
OverflowError, both windows are ordered: start at or before end. -/
theorem comparison_windows_ordered
    (today : PyDate) (k : Nat) (r : ComparisonDates)
    (hv : Valid today) (h : get_comparison_dates today k = some r) :
    ord r.month1_start ≤ ord r.month1_end
    ∧ ord r.month2_start ≤ ord r.month2_end := by
  unfold get_comparison_dates at h
  rcases hsub : subDaysO today (30 * k) with _ | base
  · rw [hsub] at h; exact absurd h (by simp)
  · rw [hsub] at h
    simp only [Option.bind] at h
    have spec := comparisonFromBase_spec hv (subDaysO_valid hv _ hsub) h
    exact ⟨spec.2.2.2.2.1, spec.2.2.2.2.2.1⟩

/-- The spec sheet example: 2024-02-21 gives Feb 1-21 against Jan 1-21. -/
def cwFeb : ComparisonDates :=
  ⟨⟨2024, 2, 1⟩, ⟨2024, 2, 21⟩, ⟨2024, 1, 1⟩, ⟨2024, 1, 21⟩, ⟨2024, 2, 21⟩⟩

theorem comparison_windows_ordered_witness :
    Valid (⟨2024, 2, 21⟩ : PyDate)
    ∧ get_comparison_dates ⟨2024, 2, 21⟩ 0 = some cwFeb
    ∧ (ord cwFeb.month1_start ≤ ord cwFeb.month1_end
       ∧ ord cwFeb.month2_start ≤ ord cwFeb.month2_end) :=
  ⟨by decide, by decide,
    comparison_windows_ordered ⟨2024, 2, 21⟩ 0 cwFeb (by decide) (by decide)⟩

/-- C8 (counterexample to the claim as stated): with the reference date
0001-01-31 and offset 0, month1_start - timedelta(days=1) steps before the
calendar epoch, so the code raises OverflowError instead of returning a
window pair ("no error conditions" fails). -/
theorem comparison_dates_epoch_overflow :
    Valid (⟨1, 1, 31⟩ : PyDate) ∧ get_comparison_dates ⟨1, 1, 31⟩ 0 = none :=
  ⟨by decide, by decide⟩

/-! ## Kajabi paginated early-exit fetchers

The customer and purchase loops compare IST-localized instants
(dt_start_ist, record timestamps); instants are modelled as integers.
A record field that is missing, or whose string fails to parse (the
per-record try/except passes), is modelled as none: in both cases the code
ignores that field for that record. -/

/-- The window dt_start_ist .. dt_end_ist as two instants. -/
structure KWindow where
  dt_start : Int
  dt_end : Int
deriving DecidableEq, Repr

/-- One customer record: updated_at drives the early-exit flag, created_at
the window filter (flask_app.py lines 487-505). -/
structure KCustomer where
  updated_at : Option Int
  created_at : Option Int
deriving DecidableEq, Repr

/-- One response of the customers endpoint: ok carries data and whether
links.next is present; err is a non-200 status or a requests exception
(both break the loop). -/
inductive CPage where
  | ok (data : List KCustomer) (hasNext : Bool)
  | err
deriving DecidableEq, Repr

/-- updated_at < dt_start_ist: the record is older than the window. -/
def customerLate (w : KWindow) (c : KCustomer) : Bool :=
  match c.updated_at with
  | some u => decide (u < w.dt_start)
  | none => false

/-- dt_start_ist <= created_at <= dt_end_ist: the record is kept. -/
def customerInWindow (w : KWindow) (c : KCustomer) : Bool :=
  match c.created_at with
  | some d => decide (w.dt_start ≤ d ∧ d ≤ w.dt_end)
  | none => false

/-- The body of the for-loop over one page (lines 487-505): the stop flag
is or-ed per record, in-window records are appended in page order. -/
def customerStep (w : KWindow) (st : Bool × List KCustomer) (c : KCustomer) :
    Bool × List KCustomer :=
  let st1 : Bool × List KCustomer :=
    match c.updated_at with
    | some u => if u < w.dt_start then (true, st.2) else st
    | none => st
  match c.created_at with
  | some d => if w.dt_start ≤ d ∧ d ≤ w.dt_end then (st1.1, st1.2 ++ [c]) else st1
  | none => st1

/-- One page processed in full: should_stop starts False per page. -/
def customerPage (w : KWindow) (batch : List KCustomer) : Bool × List KCustomer :=
  batch.foldl (customerStep w) (false, [])

def customerStop (w : KWindow) (batch : List KCustomer) : Bool :=
  batch.any (customerLate w)

def customerKeep (w : KWindow) (batch : List KCustomer) : List KCustomer :=
  batch.filter (customerInWindow w)

theorem customerStep_eq (w : KWindow) (st : Bool × List KCustomer) (c : KCustomer) :
    customerStep w st c
      = (st.1 || customerLate w c,
         if customerInWindow w c then st.2 ++ [c] else st.2) := by
  obtain ⟨b, acc⟩ := st
  rcases c with ⟨_ | u, _ | d⟩ <;>
    simp only [customerStep, customerLate, customerInWindow]
  · simp
  · by_cases h2 : (w.dt_start ≤ d ∧ d ≤ w.dt_end) <;> simp [h2]
  · by_cases h1 : u < w.dt_start <;> simp [h1]
  · by_cases h1 : u < w.dt_start <;>
      by_cases h2 : (w.dt_start ≤ d ∧ d ≤ w.dt_end) <;> simp [h1, h2]

/-- Processing a page classifies every record of the page: the flag is the
disjunction of the lateness tests and the kept list is the window filter of
the whole page, whether or not the flag was raised mid-page. -/
theorem customerPage_fold (w : KWindow) (batch : List KCustomer)
    (b : Bool) (acc : List KCustomer) :
    batch.foldl (customerStep w) (b, acc)
      = (b || customerStop w batch, acc ++ customerKeep w batch) := by
  induction batch generalizing b acc with
  | nil => simp [customerStop, customerKeep]
  | cons c cs ih =>
    simp only [List.foldl_cons, customerStep_eq]
    rw [ih]
    simp only [customerStop, customerKeep, List.any_cons, List.filter_cons]
    cases hcw : customerInWindow w c <;> simp [hcw, Bool.or_assoc]

theorem customerPage_eq (w : KWindow) (batch : List KCustomer) :
    customerPage w batch = (customerStop w batch, customerKeep w batch) := by
  unfold customerPage
  rw [customerPage_fold]
  simp

/-- The pagination loop of get_kajabi_new_customers (flask_app.py lines
468-512): while next_url and page_count < 50, request a page (err or an
empty batch breaks), classify every record of the page, then stop if the
flag was raised, else follow links.next.  The second component counts the
page requests the loop issued. -/
def customersGo (w : KWindow) : List CPage → Nat → List KCustomer →
    List KCustomer × Nat
  | [], _, acc => (acc, 0)
  | CPage.err :: _, page_count, acc =>
    if page_count < 50 then (acc, 1) else (acc, 0)
  | CPage.ok batch hasNext :: rest, page_count, acc =>
    if page_count < 50 then
      if batch = [] then (acc, 1)
      else
        let st := customerPage w batch
        if st.1 then (acc ++ st.2, 1)
        else if hasNext then
          let r := customersGo w rest (page_count + 1) (acc ++ st.2)
          (r.1, r.2 + 1)
        else (acc ++ st.2, 1)
    else (acc, 0)

/-- The three one-record pages of the spec example: recency = date = 10, 5
and 1, window start 6, end 10. -/
def exWindow : KWindow := ⟨6, 10⟩

def exC1 : KCustomer := ⟨some 10, some 10⟩

def exC2 : KCustomer := ⟨some 5, some 5⟩

def exC3 : KCustomer := ⟨some 1, some 1⟩

/-- One purchase record of get_kajabi_sales: created_at drives both the
early-exit flag and the window filter; amount_in_cents is none when missing
or null (the code then adds 0). -/
structure KPurchase where
  created_at : Option Int
  amount_in_cents : Option Int
deriving DecidableEq, Repr

/-- One response of the purchases endpoint. -/
inductive SPage where
  | ok (data : List KPurchase) (hasNext : Bool)
  | err
deriving DecidableEq, Repr

/-- created_at < dt_start_ist: purchase is older than the window. -/
def purchaseLate (w : KWindow) (p : KPurchase) : Bool :=
  match p.created_at with
  | some d => decide (d < w.dt_start)
  | none => false

/-- dt_start_ist <= created_at <= dt_end_ist. -/
def purchaseInWindow (w : KWindow) (p : KPurchase) : Bool :=
  match p.created_at with
  | some d => decide (w.dt_start ≤ d ∧ d ≤ w.dt_end)
  | none => false

/-- float(attrs.get(..., 0) or 0) / 100, exactly in the rationals. -/
def purchaseAmt (p : KPurchase) : Rat :=
  ((p.amount_in_cents.getD 0 : Int) : Rat) / 100

/-- The body of the for-loop over one purchases page (flask_app.py lines
567-581): a record older than the window raises the flag and is skipped
(continue); an in-window record adds its amount and is kept. -/
def salesStep (w : KWindow) (st : Bool × Rat × List KPurchase) (p : KPurchase) :
    Bool × Rat × List KPurchase :=
  match p.created_at with
  | none => st
  | some d =>
    if d < w.dt_start then (true, st.2.1, st.2.2)
    else if w.dt_start ≤ d ∧ d ≤ w.dt_end then
      (st.1, st.2.1 + purchaseAmt p, st.2.2 ++ [p])
    else st

def salesPage (w : KWindow) (st : Rat × List KPurchase) (batch : List KPurchase) :
    Bool × Rat × List KPurchase :=
  batch.foldl (salesStep w) (false, st)

def salesStop (w : KWindow) (batch : List KPurchase) : Bool :=
  batch.any (purchaseLate w)

def salesKeep (w : KWindow) (batch : List KPurchase) : List KPurchase :=
  batch.filter (purchaseInWindow w)

def salesSum (w : KWindow) (batch : List KPurchase) : Rat :=
  ((salesKeep w batch).map purchaseAmt).sum

theorem salesStep_eq (w : KWindow) (st : Bool × Rat × List KPurchase)
    (p : KPurchase) :
    salesStep w st p
      = (st.1 || purchaseLate w p,
         st.2.1 + (if purchaseInWindow w p then purchaseAmt p else 0),
         if purchaseInWindow w p then st.2.2 ++ [p] else st.2.2) := by
  obtain ⟨b, rev, fil⟩ := st
  rcases p with ⟨_ | d, amt⟩ <;>
    simp only [salesStep, purchaseLate, purchaseInWindow]
  · simp
  · by_cases h1 : d < w.dt_start
    · have h2 : ¬ (w.dt_start ≤ d ∧ d ≤ w.dt_end) := by omega
      simp [h1, h2]
    · by_cases h2 : (w.dt_start ≤ d ∧ d ≤ w.dt_end) <;> simp [h1, h2]

/-- A purchases page is also classified in full: the flag does not lose
records of its own page, the revenue and kept list are the window filter of
the whole page. -/
theorem salesPage_fold (w : KWindow) (batch : List KPurchase) (b : Bool)
    (rev : Rat) (fil : List KPurchase) :
    batch.foldl (salesStep w) (b, rev, fil)
      = (b || salesStop w batch, rev + salesSum w batch, fil ++ salesKeep w batch) := by
  induction batch generalizing b rev fil with
  | nil => simp [salesStop, salesSum, salesKeep]
  | cons p ps ih =>
    simp only [List.foldl_cons, salesStep_eq]
    rw [ih]
    simp only [salesStop, salesSum, salesKeep, List.any_cons, List.filter_cons]
    cases hpw : purchaseInWindow w p <;>
      simp [hpw, Bool.or_assoc, add_assoc]

theorem salesPage_eq (w : KWindow) (st : Rat × List KPurchase)
    (batch : List KPurchase) :
    salesPage w st batch
      = (salesStop w batch, st.1 + salesSum w batch, st.2 ++ salesKeep w batch) := by
  unfold salesPage
  rw [salesPage_fold]
  simp

/-- The pagination loop of get_kajabi_sales (flask_app.py lines 551-588);
same shape as the customers loop, accumulating (revenue, filtered). -/
def salesGo (w : KWindow) : List SPage → Nat → Rat × List KPurchase →
    (Rat × List KPurchase) × Nat
  | [], _, st => (st, 0)
  | SPage.err :: _, page_count, st =>
    if page_count < 50 then (st, 1) else (st, 0)
  | SPage.ok batch hasNext :: rest, page_count, st =>
    if page_count < 50 then
      if batch = [] then (st, 1)
      else
        let r := salesPage w st batch
        if r.1 then ((r.2.1, r.2.2), 1)
        else if hasNext then
          let q := salesGo w rest (page_count + 1) (r.2.1, r.2.2)
          (q.1, q.2 + 1)
        else ((r.2.1, r.2.2), 1)
    else (st, 0)

/-- The same three-page shape for the purchases loop: created = recency
= 10, 5 and 1, amounts 1000, 500 and 100 cents. -/
def exS1 : KPurchase := ⟨some 10, some 1000⟩

def exS2 : KPurchase := ⟨some 5, some 500⟩

def exS3 : KPurchase := ⟨some 1, some 100⟩

/-- C1: in both paginated windowed Kajabi fetches, a page whose
classification raises the stop flag is still classified in full — the
customers loop keeps the window filter of the whole page, the purchases
loop adds the whole page's in-window revenue and keeps its window filter —
and no further page is requested (exactly this page's request is counted).
Concretely, on pages [[r1(10,10)], [r2(5,5)], [r3(1,1)]] with window 6..10
the customers fetch keeps r1, stops after the second page, and never
requests the third. -/
theorem customers_fetch_early_exit (w : KWindow) (batch : List KCustomer)
    (rest : List CPage) (hasNext : Bool) (pc : Nat) (acc : List KCustomer)
    (w2 : KWindow) (batch2 : List KPurchase) (rest2 : List SPage)
    (hasNext2 : Bool) (pc2 : Nat) (st : Rat × List KPurchase)
    (hpc : pc < 50) (hne : batch ≠ []) (hstop : customerStop w batch = true)
    (hpc2 : pc2 < 50) (hne2 : batch2 ≠ [])
    (hstop2 : salesStop w2 batch2 = true) :
    customersGo w (CPage.ok batch hasNext :: rest) pc acc
      = (acc ++ customerKeep w batch, 1)
    ∧ salesGo w2 (SPage.ok batch2 hasNext2 :: rest2) pc2 st
      = ((st.1 + salesSum w2 batch2, st.2 ++ salesKeep w2 batch2), 1)
    ∧ customersGo exWindow
        [CPage.ok [exC1] true, CPage.ok [exC2] true, CPage.ok [exC3] true] 0 []
      = ([exC1], 2) := by
  refine ⟨?_, ?_, by decide⟩
  · simp [customersGo, customerPage_eq, hpc, hne, hstop]
  · simp [salesGo, salesPage_eq, hpc2, hne2, hstop2]

theorem customers_fetch_early_exit_witness :
    ((0 : Nat) < 50 ∧ ([exC2] : List KCustomer) ≠ []
      ∧ customerStop exWindow [exC2] = true
      ∧ ([exS2] : List KPurchase) ≠ []
      ∧ salesStop exWindow [exS2] = true)
    ∧ (customersGo exWindow [CPage.ok [exC2] true, CPage.ok [exC3] true] 0 []
        = ([] ++ customerKeep exWindow [exC2], 1)
      ∧ salesGo exWindow [SPage.ok [exS2] true, SPage.ok [exS3] true] 0
          (10, [exS1])
        = ((10 + salesSum exWindow [exS2], [exS1] ++ salesKeep exWindow [exS2]),
           1)) := by
  refine ⟨⟨by decide, by decide, by decide, by decide, by decide⟩, ?_, ?_⟩
  · exact (customers_fetch_early_exit exWindow [exC2] [CPage.ok [exC3] true]
      true 0 [] exWindow [exS2] [SPage.ok [exS3] true] true 0 (10, [exS1])
      (by decide) (by decide) (by decide) (by decide) (by decide) (by decide)).1
  · exact (customers_fetch_early_exit exWindow [exC2] [CPage.ok [exC3] true]
      true 0 [] exWindow [exS2] [SPage.ok [exS3] true] true 0 (10, [exS1])
      (by decide) (by decide) (by decide) (by decide) (by decide)
      (by decide)).2.1

/-! ## HubSpot deal fetch -/

/-- One deal as the Flask fetch reads it: the owner id property (absent
deals look up as the empty name), the parsed amount (none when the amount
string is missing, empty or unparsable: all those contribute nothing), and
the close date converted to an IST calendar day (none when missing or
unparsable: the record is then skipped for the daily trend). -/
structure HDeal where
  hubspot_owner_id : Option String
  amount : Option Rat
  closedate : Option PyDate
deriving DecidableEq, Repr

/-- One response of the deal-search endpoint: ok carries the page and
whether paging.next.after is present; err is a non-200 status or a requests
exception (both break the loop). -/
inductive HPage where
  | ok (results : List HDeal) (hasNext : Bool)
  | err
deriving DecidableEq, Repr

/-- flask_app.py line 217. -/
def EXCLUDED_OWNERS : List String :=
  ["Mahalekshmi M J", "Sreeja Anoop", "arya.krishnan", "Devi Krishna"]

def noOwnerName : String := ""

/-- owner_map.get(o_id, "") over the fetched owner-name map (line 371). -/
def ownerNameOf (owner_map : String → Option String) (r : HDeal) : String :=
  match r.hubspot_owner_id with
  | some oid => (owner_map oid).getD noOwnerName
  | none => noOwnerName

/-- Per page, records whose owner name is excluded are skipped (lines
369-374). -/
def hubspotFilter (owner_map : String → Option String) (results : List HDeal) :
    List HDeal :=
  results.filter (fun r => !decide (ownerNameOf owner_map r ∈ EXCLUDED_OWNERS))

/-- The pagination loop of get_hubspot_deals (flask_app.py lines 345-383):
while True, request a page, keep its non-excluded records, follow
paging.next.after; there is no page-count bound.  The second component
counts page requests. -/
def hubspotGo (owner_map : String → Option String) :
    List HPage → List HDeal → List HDeal × Nat
  | [], acc => (acc, 0)
  | HPage.err :: _, acc => (acc, 1)
  | HPage.ok results hasNext :: rest, acc =>
    let acc2 := acc ++ hubspotFilter owner_map results
    if hasNext then
      let r := hubspotGo owner_map rest acc2
      (r.1, r.2 + 1)
    else (acc2, 1)

/-- Robust sum of deal amounts (lines 386-393). -/
def dealsTotal (rs : List HDeal) : Rat :=
  rs.foldl (fun t r => t + r.amount.getD 0) 0

/-- daily_counts built from parsed close dates (lines 396-411): the count a
date maps to is the number of kept deals that closed on it. -/
def dealsDailyCount (rs : List HDeal) (d : PyDate) : Nat :=
  (rs.filter (fun r => r.closedate == some d)).length

/-- One iteration per calendar day of the fill loop; the fuel argument is
the number of days from curr to the chart end inclusive, so the loop runs
exactly while curr <= chart_end. -/
def fillDaysGo (counts : PyDate → Nat) (curr : PyDate) :
    Nat → List (PyDate × Nat)
  | 0 => []
  | n + 1 => (curr, counts curr) :: fillDaysGo counts (nextDay curr) n

/-- The date-range fill (flask_app.py lines 413-421): one row per calendar
day from startD to endD inclusive (none when startD is past endD), each
carrying the count the daily map holds for it.  _chart_end_date is the
identity, so the chart end is endD itself. -/
def fillDays (counts : PyDate → Nat) (startD endD : PyDate) :
    List (PyDate × Nat) :=
  fillDaysGo counts startD (ord endD + 1 - ord startD)

/-- get_hubspot_deals (flask_app.py lines 318-422) as a function of the
owner map, the pages the API serves, and the target window; the timestamp
filter of the search body lives server-side and is part of the page input.
Returns (count, total revenue, daily trend). -/
def get_hubspot_deals (owner_map : String → Option String) (pages : List HPage)
    (target_month_start target_month_end : PyDate) :
    Nat × Rat × List (PyDate × Nat) :=
  let all_results := (hubspotGo owner_map pages []).1
  (all_results.length, dealsTotal all_results,
   fillDays (dealsDailyCount all_results) target_month_start target_month_end)

/-- The streamlit_app.py get_hubspot_deals pagination (lines 400-466): same
loop, but every record of a page is kept — no owner exclusion. -/
def streamlitHubspotGo : List HPage → List HDeal → List HDeal × Nat
  | [], acc => (acc, 0)
  | HPage.err :: _, acc => (acc, 1)
  | HPage.ok results hasNext :: rest, acc =>
    let acc2 := acc ++ results
    if hasNext then
      let r := streamlitHubspotGo rest acc2
      (r.1, r.2 + 1)
    else (acc2, 1)

/-- streamlit_app.py lines 400-470: returns (count, total, deals). -/
def streamlit_get_hubspot_deals (pages : List HPage) :
    Nat × Rat × List HDeal :=
  let all_results := (streamlitHubspotGo pages []).1
  (all_results.length,
   all_results.foldl (fun t r => t + r.amount.getD 0) 0,
   all_results)

/-! ## Kajabi products listing -/

structure KProduct where
  title : String
  members : Nat
deriving DecidableEq, Repr

/-- One response of the products endpoint: bad is a non-200 status (break,
keep what was read); exn is a requests exception, which escapes the loop to
the outer try and makes the whole call return []. -/
inductive PPage where
  | ok (data : List KProduct) (hasNext : Bool)
  | bad
  | exn
deriving DecidableEq, Repr

/-- The pagination loop of get_kajabi_products (flask_app.py lines 599-618):
while next_url, request, append every product of the page, follow
links.next; no page-count bound and no empty-batch break. -/
def productsGo : List PPage → List KProduct → List KProduct × Nat
  | [], acc => (acc, 0)
  | PPage.bad :: _, acc => (acc, 1)
  | PPage.exn :: _, _ => ([], 1)
  | PPage.ok data hasNext :: rest, acc =>
    let acc2 := acc ++ data
    if hasNext then
      let r := productsGo rest acc2
      (r.1, r.2 + 1)
    else (acc2, 1)

/-! ## Kajabi active customers -/

/-- One customer record of get_kajabi_active_customers: updated_at drives
the early-exit flag, last_request_at the active test (flask_app.py lines
652-670). -/
structure KActiveCustomer where
  updated_at : Option Int
  last_request_at : Option Int
deriving DecidableEq, Repr

/-- One response of the customers endpoint as this fetch reads it. -/
inductive APage where
  | ok (data : List KActiveCustomer) (hasNext : Bool)
  | err
deriving DecidableEq, Repr

/-- updated_at < dt_limit_ist: the record is older than start_date. -/
def activeLate (dt_limit : Int) (c : KActiveCustomer) : Bool :=
  match c.updated_at with
  | some u => decide (u < dt_limit)
  | none => false

/-- last_request_at >= dt_limit_ist: the customer counts as active. -/
def activeHit (dt_limit : Int) (c : KActiveCustomer) : Bool :=
  match c.last_request_at with
  | some lr => decide (dt_limit ≤ lr)
  | none => false

/-- The pagination loop of get_kajabi_active_customers (flask_app.py lines
633-679): while next_url and page < 50, request a page (err or an empty
batch breaks), or the stop flag over the page and add the page's active
hits, then stop if the flag was raised, else follow links.next.  The second
component counts page requests. -/
def activeGo (dt_limit : Int) : List APage → Nat → Nat → Nat × Nat
  | [], _, active_count => (active_count, 0)
  | APage.err :: _, page, active_count =>
    if page < 50 then (active_count, 1) else (active_count, 0)
  | APage.ok batch hasNext :: rest, page, active_count =>
    if page < 50 then
      if batch = [] then (active_count, 1)
      else
        let stop_fetching := batch.any (activeLate dt_limit)
        let active2 := active_count + (batch.filter (activeHit dt_limit)).length
        if stop_fetching then (active2, 1)
        else if hasNext then
          let r := activeGo dt_limit rest (page + 1) active2
          (r.1, r.2 + 1)
        else (active2, 1)
    else (active_count, 0)

/-! ## Pagination bounds (C3) -/

theorem customersGo_le (w : KWindow) (pages : List CPage) :
    ∀ (pc : Nat) (acc : List KCustomer), (customersGo w pages pc acc).2 ≤ 50 - pc := by
  induction pages with
  | nil => intro pc acc; simp [customersGo]
  | cons pg rest ih =>
    intro pc acc
    cases pg with
    | err =>
      simp only [customersGo]
      split
      · rename_i hpc; simp only; omega
      · simp only; omega
    | ok batch hasNext =>
      simp only [customersGo]
      split
      · rename_i hpc
        split
        · simp only; omega
        · split
          · simp only; omega
          · split
            · have h := ih (pc + 1) (acc ++ (customerPage w batch).2)
              simp only
              omega
            · simp only; omega
      · simp only; omega

theorem salesGo_le (w : KWindow) (pages : List SPage) :
    ∀ (pc : Nat) (st : Rat × List KPurchase), (salesGo w pages pc st).2 ≤ 50 - pc := by
  induction pages with
  | nil => intro pc st; simp [salesGo]
  | cons pg rest ih =>
    intro pc st
    cases pg with
    | err =>
      simp only [salesGo]
      split
      · rename_i hpc; simp only; omega
      · simp only; omega
    | ok batch hasNext =>
      simp only [salesGo]
      split
      · rename_i hpc
        split
        · simp only; omega
        · split
          · simp only; omega
          · split
            · have h := ih (pc + 1)
                ((salesPage w st batch).2.1, (salesPage w st batch).2.2)
              simp only
              omega
            · simp only; omega
      · simp only; omega

theorem hubspotGo_replicate (om : String → Option String) :
    ∀ (n : Nat) (acc : List HDeal),
      (hubspotGo om (List.replicate n (HPage.ok [] true)) acc).2 = n := by
  intro n
  induction n with
  | zero => intro acc; simp [hubspotGo]
  | succ k ih =>
    intro acc
    simp only [List.replicate_succ, hubspotGo, if_true]
    rw [ih]

theorem productsGo_replicate :
    ∀ (n : Nat) (acc : List KProduct),
      (productsGo (List.replicate n (PPage.ok [] true)) acc).2 = n := by
  intro n
  induction n with
  | zero => intro acc; simp [productsGo]
  | succ k ih =>
    intro acc
    simp only [List.replicate_succ, productsGo, if_true]
    rw [ih]

theorem activeGo_le (t : Int) (pages : List APage) :
    ∀ (pc : Nat) (active : Nat), (activeGo t pages pc active).2 ≤ 50 - pc := by
  induction pages with
  | nil => intro pc active; simp [activeGo]
  | cons pg rest ih =>
    intro pc active
    cases pg with
    | err =>
      simp only [activeGo]
      split
      · rename_i hpc; simp only; omega
      · simp only; omega
    | ok batch hasNext =>
      simp only [activeGo]
      split
      · rename_i hpc
        split
        · simp only; omega
        · split
          · simp only; omega
          · split
            · have h := ih (pc + 1)
                (active + (batch.filter (activeHit t)).length)
              simp only
              omega
            · simp only; omega
      · simp only; omega

/-- C3 (amended): the Kajabi customer, purchase and active-customer loops
issue at most 50 page requests in one call (at most 50 - page_count from
page page_count on); the HubSpot deal search and the Kajabi product listing
have no such bound — a source that keeps returning a next-page cursor draws
exactly one request per page it serves, beyond any bound. -/
theorem pagination_bounds :
    (∀ (w : KWindow) (pages : List CPage) (pc : Nat) (acc : List KCustomer),
        (customersGo w pages pc acc).2 ≤ 50 - pc)
    ∧ (∀ (w : KWindow) (pages : List SPage) (pc : Nat) (st : Rat × List KPurchase),
        (salesGo w pages pc st).2 ≤ 50 - pc)
    ∧ (∀ (t : Int) (pages : List APage) (pc : Nat) (active : Nat),
        (activeGo t pages pc active).2 ≤ 50 - pc)
    ∧ (∀ (n : Nat) (om : String → Option String),
        (hubspotGo om (List.replicate n (HPage.ok [] true)) []).2 = n)
    ∧ (∀ n : Nat, (productsGo (List.replicate n (PPage.ok [] true)) []).2 = n) :=
  ⟨fun w pages pc acc => customersGo_le w pages pc acc,
   fun w pages pc st => salesGo_le w pages pc st,
   fun t pages pc active => activeGo_le t pages pc active,
   fun n om => hubspotGo_replicate om n [],
   fun n => productsGo_replicate n []⟩

/-- C3 (counterexample to the claim as stated): a HubSpot deal search
against a source that serves 51 pages with cursors issues 51 page requests,
more than the claimed bound of 50. -/
theorem hubspot_pagination_unbounded_51 :
    (hubspotGo (fun _ => none) (List.replicate 51 (HPage.ok [] true)) []).2 = 51
    ∧ ¬ ((hubspotGo (fun _ => none) (List.replicate 51 (HPage.ok [] true)) []).2
          ≤ 50) := by
  constructor
  · decide
  · decide

/-! ## Failure aborts with accumulated results (C4) -/

/-- Pages that succeed and carry a next cursor: the loop walks past them. -/
def isOkNext : HPage → Bool
  | HPage.ok _ true => true
  | _ => false

/-- The records a prefix of pages contributes, after owner exclusion. -/
def okKept (om : String → Option String) : List HPage → List HDeal
  | [] => []
  | HPage.ok results _ :: rest => hubspotFilter om results ++ okKept om rest
  | HPage.err :: rest => okKept om rest

theorem hubspotGo_abort (om : String → Option String) :
    ∀ (good : List HPage) (rest : List HPage) (acc : List HDeal),
      good.all isOkNext = true →
      hubspotGo om (good ++ HPage.err :: rest) acc
        = (acc ++ okKept om good, good.length + 1) := by
  intro good
  induction good with
  | nil =>
    intro rest acc _
    simp [hubspotGo, okKept]
  | cons pg rest1 ih =>
    intro rest acc hall
    rcases pg with ⟨results, hasNext⟩ | _
    · rw [List.all_cons, Bool.and_eq_true] at hall
      have hh : hasNext = true := by
        cases hasNext
        · exact absurd hall.1 (by simp [isOkNext])
        · rfl
      subst hh
      simp only [List.cons_append, hubspotGo, if_true, List.append_eq]
      rw [ih rest (acc ++ hubspotFilter om results) hall.2]
      simp [okKept, List.append_assoc]
    · rw [List.all_cons, Bool.and_eq_true] at hall
      exact absurd hall.1 (by simp [isOkNext])

/-- C4: when a page request fails, the fetch aborts and returns exactly what
the earlier pages accumulated: the HubSpot loop returns the kept records of
the good prefix (one request counted for the failed page, none for what
would follow), get_hubspot_deals computes its count, revenue and daily trend
from that prefix, and the purchases loop likewise hands back its
accumulated (revenue, filtered) pair.  No failure escapes to the caller:
every outcome is an ordinary return value. -/
theorem page_failure_returns_accumulated
    (om : String → Option String) (good rest : List HPage) (acc : List HDeal)
    (s e : PyDate) (w : KWindow) (rest2 : List SPage) (pc : Nat)
    (st : Rat × List KPurchase)
    (hgood : good.all isOkNext = true) (hpc : pc < 50) :
    hubspotGo om (good ++ HPage.err :: rest) acc
      = (acc ++ okKept om good, good.length + 1)
    ∧ get_hubspot_deals om (good ++ HPage.err :: rest) s e
      = ((okKept om good).length, dealsTotal (okKept om good),
         fillDays (dealsDailyCount (okKept om good)) s e)
    ∧ salesGo w (SPage.err :: rest2) pc st = (st, 1) := by
  refine ⟨hubspotGo_abort om good rest acc hgood, ?_, ?_⟩
  · unfold get_hubspot_deals
    rw [hubspotGo_abort om good rest [] hgood]
    simp
  · simp [salesGo, hpc]

def exDealA : HDeal := ⟨none, some 100, some ⟨2024, 2, 1⟩⟩

def exDealB : HDeal := ⟨none, some 50, some ⟨2024, 2, 2⟩⟩

theorem page_failure_returns_accumulated_witness :
    (([HPage.ok [exDealA] true] : List HPage).all isOkNext = true
      ∧ (0 : Nat) < 50)
    ∧ (hubspotGo (fun _ => none)
          ([HPage.ok [exDealA] true] ++ HPage.err :: [HPage.ok [exDealB] true]) []
        = ([] ++ okKept (fun _ => none) [HPage.ok [exDealA] true], 2)
      ∧ get_hubspot_deals (fun _ => none)
          ([HPage.ok [exDealA] true] ++ HPage.err :: [HPage.ok [exDealB] true])
          ⟨2024, 2, 1⟩ ⟨2024, 2, 2⟩
        = ((okKept (fun _ => none) [HPage.ok [exDealA] true]).length,
           dealsTotal (okKept (fun _ => none) [HPage.ok [exDealA] true]),
           fillDays
             (dealsDailyCount (okKept (fun _ => none) [HPage.ok [exDealA] true]))
             ⟨2024, 2, 1⟩ ⟨2024, 2, 2⟩)
      ∧ salesGo exWindow (SPage.err :: []) 0 (0, []) = ((0, []), 1)) :=
  ⟨⟨by decide, by decide⟩,
    page_failure_returns_accumulated (fun _ => none) [HPage.ok [exDealA] true]
      [HPage.ok [exDealB] true] [] ⟨2024, 2, 1⟩ ⟨2024, 2, 2⟩ exWindow [] 0 (0, [])
      (by decide) (by decide)⟩

/-! ## Owner exclusion (C9) -/

theorem hubspotFilter_not_excluded {om : String → Option String} {r : HDeal}
    {results : List HDeal} (h : r ∈ hubspotFilter om results) :
    ownerNameOf om r ∉ EXCLUDED_OWNERS := by
  have h2 := (List.mem_filter.mp h).2
  rw [Bool.not_eq_true'] at h2
  exact of_decide_eq_false h2

theorem hubspotGo_mem (om : String → Option String) :
    ∀ (pages : List HPage) (acc : List HDeal) (r : HDeal),
      r ∈ (hubspotGo om pages acc).1 →
        r ∈ acc ∨ ownerNameOf om r ∉ EXCLUDED_OWNERS := by
  intro pages
  induction pages with
  | nil =>
    intro acc r h
    exact Or.inl (by simpa [hubspotGo] using h)
  | cons pg rest ih =>
    intro acc r h
    cases pg with
    | err => exact Or.inl (by simpa [hubspotGo] using h)
    | ok results hasNext =>
      cases hasNext
      · simp only [hubspotGo, Bool.false_eq_true, if_false] at h
        rcases List.mem_append.mp h with h1 | h2
        · exact Or.inl h1
        · exact Or.inr (hubspotFilter_not_excluded h2)
      · simp only [hubspotGo, if_true] at h
        rcases ih (acc ++ hubspotFilter om results) r h with h1 | h2
        · rcases List.mem_append.mp h1 with ha | hb
          · exact Or.inl ha
          · exact Or.inr (hubspotFilter_not_excluded hb)
        · exact Or.inr h2

def exOwnerId : String := "9001"

def excludedName : String := "Sreeja Anoop"

def exOwnerMap : String → Option String :=
  fun oid => if oid = exOwnerId then some excludedName else none

/-- A deal whose owner id resolves, through the owner map, to a name on the
excluded list. -/
def exOwnedDeal : HDeal := ⟨some exOwnerId, some 100, some ⟨2024, 2, 2⟩⟩

/-- C9: the Flask deal fetch never returns a deal whose owner name is on the
hardcoded excluded list, for any owner map, page stream and window — so the
count, the revenue total and the daily trend all omit such deals.
Concretely, a single in-window deal of 100 owned by an excluded owner yields
count 0, revenue 0 and an all-zero trend from the Flask fetch, while the
Streamlit variant of the same fetch (which has no exclusion) counts it and
sums its amount. -/
theorem excluded_owner_filtering :
    (∀ (om : String → Option String) (pages : List HPage) (r : HDeal),
        r ∈ (hubspotGo om pages []).1 → ownerNameOf om r ∉ EXCLUDED_OWNERS)
    ∧ get_hubspot_deals exOwnerMap [HPage.ok [exOwnedDeal] false]
        ⟨2024, 2, 1⟩ ⟨2024, 2, 3⟩
      = (0, 0, [(⟨2024, 2, 1⟩, 0), (⟨2024, 2, 2⟩, 0), (⟨2024, 2, 3⟩, 0)])
    ∧ streamlit_get_hubspot_deals [HPage.ok [exOwnedDeal] false]
      = (1, 100, [exOwnedDeal]) := by
  refine ⟨?_, by decide,
    by simp [streamlit_get_hubspot_deals, streamlitHubspotGo, exOwnedDeal]⟩
  intro om pages r h
  rcases hubspotGo_mem om pages [] r h with h1 | h2
  · exact absurd h1 (List.not_mem_nil r)
  · exact h2

/-! ## Date-range fill (C7) -/

theorem addDays_nextDay (d : PyDate) (n : Nat) :
    addDays (nextDay d) n = addDays d (n + 1) := by
  induction n with
  | zero => rfl
  | succ k ih => simp only [addDays, ih]

theorem fillDaysGo_length (counts : PyDate → Nat) :
    ∀ (n : Nat) (curr : PyDate), (fillDaysGo counts curr n).length = n := by
  intro n
  induction n with
  | zero => intro curr; rfl
  | succ k ih => intro curr; simp [fillDaysGo, ih]

theorem fillDaysGo_get? (counts : PyDate → Nat) :
    ∀ (n i : Nat) (curr : PyDate), i < n →
      (fillDaysGo counts curr n).get? i
        = some (addDays curr i, counts (addDays curr i)) := by
  intro n
  induction n with
  | zero => intro i curr h; omega
  | succ k ih =>
    intro i curr h
    cases i with
    | zero => rfl
    | succ j =>
      simp only [fillDaysGo, List.get?_cons_succ]
      rw [ih j (nextDay curr) (by omega), addDays_nextDay]

theorem fillDaysGo_chain (counts : PyDate → Nat) :
    ∀ (n : Nat) (curr : PyDate), Valid curr →
      List.Chain' (fun p q => ord p.1 < ord q.1) (fillDaysGo counts curr n) := by
  intro n
  induction n with
  | zero => intro curr _; simp [fillDaysGo]
  | succ k ih =>
    intro curr hv
    simp only [fillDaysGo]
    rw [List.chain'_cons']
    refine ⟨?_, ih (nextDay curr) (valid_nextDay hv)⟩
    intro b hb
    cases k with
    | zero => simp [fillDaysGo] at hb
    | succ k2 =>
      simp only [fillDaysGo, List.head?_cons, Option.mem_def,
        Option.some_inj] at hb
      subst hb
      simp only
      rw [ord_nextDay hv]
      omega

/-- daily_counts.get(d_str, 0): the count the dict holds, 0 when absent. -/
def lookupCount (m : List (PyDate × Nat)) (d : PyDate) : Nat :=
  ((m.find? (fun kv => kv.1 == d)).map (fun kv => kv.2)).getD 0

/-- The date-range fill applied to an explicit date-to-count mapping. -/
def dailyFill (m : List (PyDate × Nat)) (startD endD : PyDate) :
    List (PyDate × Nat) :=
  fillDays (lookupCount m) startD endD

def exDayMap : List (PyDate × Nat) := [(⟨2024, 2, 2⟩, 5)]

/-- C7: the fill produces exactly one row per calendar day from startD to
endD inclusive — row i is day startD + i with the mapped count (0 when the
map has no entry) — in strictly ascending date order.  Concretely, filling
(2024-02-01, 2024-02-03) from the sparse map {2024-02-02: 5} gives exactly
the three rows with counts 0, 5, 0. -/
theorem date_range_fill (m : List (PyDate × Nat)) (startD endD : PyDate)
    (hv : Valid startD) :
    (dailyFill m startD endD).length = ord endD + 1 - ord startD
    ∧ (∀ i, i < ord endD + 1 - ord startD →
        (dailyFill m startD endD).get? i
          = some (addDays startD i, lookupCount m (addDays startD i)))
    ∧ List.Chain' (fun p q => ord p.1 < ord q.1) (dailyFill m startD endD)
    ∧ dailyFill exDayMap ⟨2024, 2, 1⟩ ⟨2024, 2, 3⟩
        = [(⟨2024, 2, 1⟩, 0), (⟨2024, 2, 2⟩, 5), (⟨2024, 2, 3⟩, 0)] := by
  refine ⟨fillDaysGo_length _ _ _, ?_, fillDaysGo_chain _ _ _ hv, by decide⟩
  intro i hi
  exact fillDaysGo_get? _ _ i startD hi

theorem date_range_fill_witness :
    Valid (⟨2024, 2, 1⟩ : PyDate)
    ∧ (dailyFill exDayMap ⟨2024, 2, 1⟩ ⟨2024, 2, 3⟩).length
        = ord ⟨2024, 2, 3⟩ + 1 - ord ⟨2024, 2, 1⟩ :=
  ⟨by decide,
    (date_range_fill exDayMap ⟨2024, 2, 1⟩ ⟨2024, 2, 3⟩ (by decide)).1⟩

/-! ## Delta percentage (C5) -/

/-- The delta-percentage expression the panel routes repeat (flask_app.py
lines 792-793 in api_discover, 822-824 in api_buy, 910-912 in api_renew):
(delta / prior * 100) if prior > 0 else 0, with the float values taken in
the rationals. -/
def delta_pct (current prior : Rat) : Rat :=
  if prior > 0 then (current - prior) / prior * 100 else 0

/-- C5 (amended): the reported percentage equals (current - prior) / prior
* 100 whenever prior is positive, and is 0 whenever prior <= 0 — in
particular exactly 0 when prior = 0 (the division-by-zero policy). -/
theorem delta_pct_policy (current prior : Rat) :
    (0 < prior → delta_pct current prior = (current - prior) / prior * 100)
    ∧ (prior ≤ 0 → delta_pct current prior = 0) := by
  constructor
  · intro h
    unfold delta_pct
    rw [if_pos h]
  · intro h
    unfold delta_pct
    rw [if_neg (not_lt.mpr h)]

/-- C5 (counterexample to the claim as stated): for the nonzero prior -1 and
current 0 the code reports 0, but the formula value is -100: the guard is
prior > 0, not prior != 0. -/
theorem delta_pct_negative_prior :
    delta_pct 0 (-1) = 0
    ∧ ((0 : Rat) - (-1)) / (-1) * 100 = -100
    ∧ (0 : Rat) ≠ -100 := by
  refine ⟨?_, by norm_num, by norm_num⟩
  unfold delta_pct
  rw [if_neg (by norm_num)]

/-! ## Cumulative worm series (C6, C10) -/

def countKey : String := "Count"

def newUsersKey : String := "New Users"

/-- One element of the daily_data list calculate_cumulative receives: the
Date column plus the numeric fields of the row dict. -/
structure DailyRow where
  date : PyDate
  fields : List (String × Rat)
deriving DecidableEq, Repr

/-- The value a row carries under a field name; none when the row dict has
no such key (that DataFrame cell would be NaN). -/
def rowValue (row : DailyRow) (key : String) : Option Rat :=
  (row.fields.find? (fun kv => kv.1 == key)).map (fun kv => kv.2)

/-- pandas Series.cumsum with its default skipna: missing cells stay
missing and do not feed the running sum. -/
def cumsum (acc : Rat) : List (Option Rat) → List (Option Rat)
  | [] => []
  | none :: rest => none :: cumsum acc rest
  | some v :: rest => some (acc + v) :: cumsum (acc + v) rest

/-- calculate_cumulative (flask_app.py lines 82-90): empty input gives [];
when no record carries the requested key, the column is absent from the
DataFrame and the result is again []; otherwise the Date column is zipped
with the cumulative sums of the key column. -/
def calculate_cumulative (daily_data : List DailyRow) (key : String) :
    List (PyDate × Option Rat) :=
  if daily_data = [] then []
  else if daily_data.all (fun row => (rowValue row key).isNone) then []
  else (daily_data.map (fun row => row.date)).zip
    (cumsum 0 (daily_data.map (fun row => rowValue row key)))

/-- Running prefix sums started from acc. -/
def prefixSumsFrom (acc : Rat) : List Rat → List Rat
  | [] => []
  | v :: rest => (acc + v) :: prefixSumsFrom (acc + v) rest

theorem prefixSumsFrom_length (xs : List Rat) :
    ∀ acc, (prefixSumsFrom acc xs).length = xs.length := by
  induction xs with
  | nil => intro acc; rfl
  | cons v rest ih => intro acc; simp [prefixSumsFrom, ih]

theorem prefixSumsFrom_get? (xs : List Rat) :
    ∀ (acc : Rat) (i : Nat), i < xs.length →
      (prefixSumsFrom acc xs).get? i = some (acc + (xs.take (i + 1)).sum) := by
  induction xs with
  | nil => intro acc i h; simp at h
  | cons v rest ih =>
    intro acc i h
    cases i with
    | zero => simp [prefixSumsFrom]
    | succ j =>
      simp only [prefixSumsFrom, List.get?_cons_succ]
      rw [ih (acc + v) j (by simpa using h)]
      simp [List.take_succ_cons, add_assoc]

theorem prefixSumsFrom_getLast? (xs : List Rat) :
    ∀ acc, xs ≠ [] → (prefixSumsFrom acc xs).getLast? = some (acc + xs.sum) := by
  induction xs with
  | nil => intro acc h; exact absurd rfl h
  | cons v rest ih =>
    intro acc _
    cases rest with
    | nil => simp [prefixSumsFrom]
    | cons w t =>
      have h2 := ih (acc + v) (by simp)
      simp only [prefixSumsFrom] at h2 ⊢
      rw [List.getLast?_cons_cons, h2]
      simp [List.sum_cons, add_assoc]

theorem prefixSumsFrom_chain (xs : List Rat) :
    ∀ acc, (∀ v ∈ xs, 0 ≤ v) → List.Chain' (· ≤ ·) (prefixSumsFrom acc xs) := by
  induction xs with
  | nil => intro acc _; simp [prefixSumsFrom]
  | cons v rest ih =>
    intro acc hnn
    simp only [prefixSumsFrom]
    rw [List.chain'_cons']
    refine ⟨?_, ih (acc + v) (fun w hw => hnn w (List.mem_cons_of_mem v hw))⟩
    intro b hb
    cases rest with
    | nil => simp [prefixSumsFrom] at hb
    | cons w t =>
      simp only [prefixSumsFrom, List.head?_cons, Option.mem_def,
        Option.some_inj] at hb
      subst hb
      have hw : 0 ≤ w := hnn w (by simp)
      linarith

theorem cumsum_all_some (os : List (Option Rat)) :
    ∀ acc, (∀ o ∈ os, o.isSome = true) →
      cumsum acc os
        = (prefixSumsFrom acc (os.map (fun o => o.getD 0))).map some := by
  induction os with
  | nil => intro acc _; rfl
  | cons o rest ih =>
    intro acc hall
    cases o with
    | none => exact absurd (hall none (by simp)) (by simp)
    | some v =>
      simp only [cumsum, List.map_cons, prefixSumsFrom, Option.getD_some,
        List.map]
      rw [ih (acc + v) (fun q hq => hall q (List.mem_cons_of_mem _ hq))]

/-- C6: on a non-empty series every row of which carries the key with a
nonnegative value (a zero-filled count series), the worm builder pairs the
dates with the running prefix sums: entry i holds the sum of the first i+1
values, the last entry holds the total, the cumulative values never
decrease, and the empty series maps to the empty output. -/
theorem cumulative_prefix_sums (series : List DailyRow) (key : String)
    (hne : series ≠ [])
    (hsome : ∀ row ∈ series, (rowValue row key).isSome = true)
    (hnn : ∀ row ∈ series, 0 ≤ (rowValue row key).getD 0) :
    calculate_cumulative series key
      = (series.map (fun row => row.date)).zip
          ((prefixSumsFrom 0
            (series.map (fun row => (rowValue row key).getD 0))).map some)
    ∧ (calculate_cumulative series key).length = series.length
    ∧ (∀ i, i < series.length →
        ((calculate_cumulative series key).map (fun pt => pt.2)).get? i
          = some (some (((series.take (i + 1)).map
              (fun row => (rowValue row key).getD 0)).sum)))
    ∧ ((calculate_cumulative series key).map (fun pt => pt.2)).getLast?
        = some (some ((series.map (fun row => (rowValue row key).getD 0)).sum))
    ∧ List.Chain' (· ≤ ·)
        ((calculate_cumulative series key).map (fun pt => pt.2.getD 0))
    ∧ calculate_cumulative [] key = [] := by
  have hvals : (series.map (fun row => rowValue row key)).map (fun o => o.getD 0)
      = series.map (fun row => (rowValue row key).getD 0) := by
    rw [List.map_map]
    rfl
  have hall : ¬ (series.all (fun row => (rowValue row key).isNone) = true) := by
    intro hq
    rcases List.exists_mem_of_ne_nil series hne with ⟨r0, hr0⟩
    have h1 := List.all_eq_true.mp hq r0 hr0
    have h2 := hsome r0 hr0
    rw [Option.isNone_iff_eq_none] at h1
    rw [h1] at h2
    exact absurd h2 (by simp)
  have hmain : calculate_cumulative series key
      = (series.map (fun row => row.date)).zip
          ((prefixSumsFrom 0
            (series.map (fun row => (rowValue row key).getD 0))).map some) := by
    unfold calculate_cumulative
    rw [if_neg hne, if_neg hall]
    rw [cumsum_all_some _ 0 ?hs]
    · rw [hvals]
    case hs =>
      intro o ho
      rcases List.mem_map.mp ho with ⟨row, hrow, rfl⟩
      exact hsome row hrow
  have hlen_sums : ((prefixSumsFrom 0
      (series.map (fun row => (rowValue row key).getD 0))).map some).length
      = series.length := by
    simp [prefixSumsFrom_length]
  have hlen_dates : (series.map (fun row => row.date)).length = series.length := by
    simp
  have hsnd : (calculate_cumulative series key).map (fun pt => pt.2)
      = (prefixSumsFrom 0
          (series.map (fun row => (rowValue row key).getD 0))).map some := by
    rw [hmain]
    have hfun : (fun pt : PyDate × Option Rat => pt.2) = Prod.snd := rfl
    rw [hfun]
    exact List.map_snd_zip _ _ (by rw [hlen_sums, hlen_dates])
  refine ⟨hmain, ?_, ?_, ?_, ?_, rfl⟩
  · rw [hmain, List.length_zip, hlen_sums, hlen_dates]
    exact min_self _
  · intro i hi
    rw [hsnd, List.get?_map,
      prefixSumsFrom_get? _ 0 i (by simpa using hi)]
    simp [List.map_take]
  · rw [hsnd, List.getLast?_map, prefixSumsFrom_getLast? _ 0 (by simpa using hne)]
    simp
  · have hcomp : (calculate_cumulative series key).map (fun pt => pt.2.getD 0)
        = ((calculate_cumulative series key).map (fun pt => pt.2)).map
            (fun o => o.getD 0) := by
      rw [List.map_map]
      rfl
    rw [hcomp, hsnd, List.map_map]
    have hgd : ((fun o : Option Rat => o.getD 0) ∘ some) = id := by
      funext v; rfl
    rw [hgd, List.map_id]
    apply prefixSumsFrom_chain
    intro v hv
    rcases List.mem_map.mp hv with ⟨row, hrow, rfl⟩
    exact hnn row hrow

def exRowA : DailyRow := ⟨⟨2024, 2, 1⟩, [(countKey, 2)]⟩

def exRowB : DailyRow := ⟨⟨2024, 2, 2⟩, [(countKey, 3)]⟩

theorem cumulative_prefix_sums_witness :
    (([exRowA, exRowB] : List DailyRow) ≠ []
      ∧ (∀ row ∈ ([exRowA, exRowB] : List DailyRow),
          (rowValue row countKey).isSome = true)
      ∧ (∀ row ∈ ([exRowA, exRowB] : List DailyRow),
          0 ≤ (rowValue row countKey).getD 0))
    ∧ (calculate_cumulative [exRowA, exRowB] countKey).length
        = ([exRowA, exRowB] : List DailyRow).length :=
  ⟨⟨by decide, by decide, by decide⟩,
    (cumulative_prefix_sums [exRowA, exRowB] countKey (by decide) (by decide)
      (by decide)).2.1⟩

/-- C10: when no record of the series carries the requested key, the worm
builder returns [] — also on non-empty input — and, being a total function,
raises nothing. -/
theorem cumulative_missing_key_empty (series : List DailyRow) (key : String)
    (h : ∀ row ∈ series, rowValue row key = none) :
    calculate_cumulative series key = [] := by
  have hp : series.all (fun row => (rowValue row key).isNone) = true :=
    List.all_eq_true.mpr (fun row hrow => by rw [h row hrow]; rfl)
  unfold calculate_cumulative
  by_cases hne : series = []
  · rw [if_pos hne]
  · rw [if_neg hne, if_pos hp]

theorem cumulative_missing_key_empty_witness :
    (∀ row ∈ ([exRowA] : List DailyRow), rowValue row newUsersKey = none)
    ∧ calculate_cumulative [exRowA] newUsersKey = [] :=
  ⟨by decide, cumulative_missing_key_empty [exRowA] newUsersKey (by decide)⟩

end GrowthPhase
